import Mathlib

/-!
Verification of the Qmighty sequential job runner (`qmighty.py`).

The Python source is shallowly embedded below.  Filenames, directory names
and command tokens are `String`s; Python's substring test `s in f` is infix
containment on the underlying character lists; the external process world
(log parser results, wall-clock instants, process/thread liveness) is passed
in explicitly as data, so every definition is executable.
-/

/-- Python's `needle in haystack` substring test, used by `sanity_check`
(`qmighty.py` line 75: `if suffix in filename`). -/
def substr (needle haystack : String) : Bool :=
  decide (needle.data <:+: haystack.data)

/-- `Qmighty.sanity_check` (`qmighty.py` lines 71-78): true iff some filename
listed in the directory contains some accepted suffix as a substring.
`filenames` is the listing of the directory being checked. -/
def sanity_check (suffixes filenames : List String) : Bool :=
  filenames.any (fun f => suffixes.any (fun s => substr s f))

/-- The built-in accepted suffixes (`qmighty.py` line 53). -/
def default_suffixes : List String := [".lmp", ".in"]

/-- `Qmighty.add_suffix` (`qmighty.py` lines 66-69): append each element not
already present to the accumulated suffix list. -/
def add_suffix : List String → List String → List String
  | acc, [] => acc
  | acc, s :: rest => add_suffix (if s ∈ acc then acc else acc ++ [s]) rest

/-- Iterating a Python `str` yields its characters as one-character strings;
this is what `add_suffix` receives when the constructor's `add_suffixes`
argument is a string (as the `__main__` entry point does at line 200,
passing `args.input_format`). -/
def char_suffixes (s : String) : List String :=
  s.data.map (fun c => String.mk [c])

/-- The accepted-suffix list built by `Qmighty.__init__` (lines 50-55):
the defaults, extended by `add_suffix(add_suffixes)` when `add_suffixes`
is a string. -/
def qmighty_suffixes : Option String → List String
  | none => default_suffixes
  | some s => add_suffix default_suffixes (char_suffixes s)

/-- Helper for `splitCore`: push a character onto the current (front) word. -/
def consWord (c : Char) : List (List Char) → List (List Char)
  | [] => [[c]]
  | w :: ws => (c :: w) :: ws

/-- Core of Python's `str.split()` (no separator argument): cut at whitespace,
keeping empty cuts, which `pySplit` then drops. -/
def splitCore : List Char → List (List Char)
  | [] => []
  | c :: cs => if c.isWhitespace then [] :: splitCore cs else consWord c (splitCore cs)

/-- Python's `str.split()` with no argument (`qmighty.py` lines 96 and 98):
split on whitespace runs, discarding empty pieces. -/
def pySplit (s : String) : List String :=
  ((splitCore s.data).filter (fun w => !w.isEmpty)).map String.mk

/-- `os.path.join(a, b)` for a single relative component, as in
`qmighty.py` line 90 (posixpath semantics). -/
def path_join (a b : String) : String :=
  if b.data.head? = some '/' then b
  else if a.data = [] ∨ a.data.getLast? = some '/' then a ++ b
  else a ++ "/" ++ b

/-- The launch command constructed by `Qmighty.init_processes`
(`qmighty.py` lines 95-98), an f-string subsequently `split()`.  For a
`computer` other than `'CPU'`/`'GPU'` no command is assigned; that case is
unreachable because `init_processes` raises first (line 83). -/
def build_command (computer sim_path input_filename : String) : List String :=
  if computer = "CPU" then
    pySplit ("mpirun -np 4 -wdir " ++ sim_path ++ " lmp -in " ++ input_filename)
  else if computer = "GPU" then
    pySplit ("mpirun -n 1 -wdir " ++ sim_path ++ " lmp -k on g 1 -sf kk -pk kokkos newton on neigh half -in " ++ input_filename)
  else []

/-- Modelled from the spec (spec.md section 4.1, testable properties 3-4):
the token sequence the SPEC says `build` constructs for each computer kind.
Compared against `build_command`, which is translated from the source. -/
def spec_command (computer sim_path input_filename : String) : List String :=
  if computer = "CPU" then
    ["mpirun", "-np", "4", "-wdir", sim_path, "lmp", "-in", input_filename]
  else if computer = "GPU" then
    ["mpirun", "-n", "1", "-wdir", sim_path, "lmp", "-k", "on", "g", "1",
      "-sf", "kk", "-pk", "kokkos", "newton", "on", "neigh", "half", "-in", input_filename]
  else []

/-- The static data of one job, as held by a `Process` object
(`qmighty.py` lines 7-15, 100-101): its directory, display name and command. -/
structure JobRecord where
  path : String
  name : String
  command : List String
deriving DecidableEq

/-- The `for sim_dir in self.sim_dir_list` loop of `Qmighty.init_processes`
(`qmighty.py` lines 89-107).  Each candidate directory is given together
with its runtime listing (the filenames `os.listdir` would return for it);
directories failing `sanity_check` are skipped without consuming an id. -/
def init_loop (computer input root : String) (suffixes : List String) :
    Nat → List (String × List String) → List (Nat × JobRecord)
  | _, [] => []
  | procID, (dname, files) :: rest =>
    if sanity_check suffixes files then
      (procID,
        ⟨path_join root dname, dname, build_command computer (path_join root dname) input⟩)
        :: init_loop computer input root suffixes (procID + 1) rest
    else
      init_loop computer input root suffixes procID rest

/-- `self.num_procs` as computed by `init_processes` (lines 88, 107): the
counter is incremented exactly once per directory passing `sanity_check`. -/
def init_num_procs (suffixes : List String) (dirs : List (String × List String)) : Nat :=
  dirs.countP (fun d => sanity_check suffixes d.2)

/-- `Qmighty.init_processes` (`qmighty.py` lines 82-107): reject a bad
`computer` with `ValueError` before anything is built, otherwise build the
queue starting at id 100. -/
def init_processes (computer input root : String) (suffixes : List String)
    (dirs : List (String × List String)) : Except String (List (Nat × JobRecord)) :=
  if computer = "CPU" ∨ computer = "GPU" then
    Except.ok (init_loop computer input root suffixes 100 dirs)
  else
    Except.error ("computer=" ++ computer ++ ", not 'CPU' or 'GPU'")

/-- Python's `round` on the value extracted from the log: `float.__round__`
rounds half to even (banker's rounding), unlike Mathlib's `round`. -/
def pyRound (x : ℚ) : ℤ :=
  if x - (⌊x⌋ : ℚ) = 1 / 2 then (if ⌊x⌋ % 2 = 0 then ⌊x⌋ else ⌊x⌋ + 1)
  else round x

/-- `Process.update_timings` (`qmighty.py` lines 36-44), remaining-time part.
The argument is the observable outcome of the `try`-block: `none` when
`lammps_logfile.File`/`get` raised or `get` returned `None`, `some l` when
`get` returned the data series `l` of `CPULeft` points.  The result is
`none` when the method itself raises (the uncaught `IndexError` of
`remaining_time[-1]` on an empty series), otherwise `some` of the value
stored in `self.remaining_time`. -/
def update_timings_remaining : Option (List ℚ) → Option ℤ
  | none => some 0
  | some l => (l.getLast?).map (fun x => pyRound x)

/-- Modelled from the spec (spec.md section 4.2 `sample`): remaining time is
the most recent data point of the series, and 0 on any failure or absence
of data.  Compared against `update_timings_remaining`. -/
def spec_remaining : Option (List ℚ) → ℤ
  | none => 0
  | some l =>
    match l.getLast? with
    | none => 0
    | some x => pyRound x

/-- `self.elapsed_time = t1 - t0` (`qmighty.py` lines 33-34). -/
def elapsed_at (t0 t1 : ℚ) : ℚ := t1 - t0

/-- One observation instant during the supervision of a job, as seen at a
check of the `while process.thread.is_alive()` loop (`qmighty.py` line 119):
whether the stderr stream is still open (the drain thread of
`print_errors`, lines 24-30, is alive exactly while `process.stderr` has
not reached end of file), whether the external process is still running,
and the wall-clock time `time.time()` would return. -/
structure Tick where
  stderrOpen : Bool
  procRunning : Bool
  time : ℚ
deriving DecidableEq

/-- The ticks at which the sampling loop (`qmighty.py` lines 119-122) runs
its body: the loop continues, sampling and rendering, exactly while the
drain thread is alive at the check. -/
def superviseTicks : List Tick → List Tick
  | [] => []
  | t :: rest => if t.stderrOpen then t :: superviseTicks rest else []

/-- The tick at which the `while` condition first fails, i.e. the check on
which the loop exits and the run advances to the next job. -/
def exitCheckTick : List Tick → Option Tick
  | [] => none
  | t :: rest => if t.stderrOpen then exitCheckTick rest else some t

/-- The external world of one job during `run_process_loop`: whether the
`open`/`Popen` calls of `spawn_thread` (`qmighty.py` lines 17-22) succeed,
and the observations of the supervision loop afterwards. -/
structure JobWorld where
  launchOk : Bool
  ticks : List Tick
deriving DecidableEq

/-- Observable actions of `run_process_loop`: spawning a job's process,
running one sample/render iteration for it, and (never performed by the
source, which joins only the drain thread) waiting on the process itself. -/
inductive Event where
  | spawn (id : Nat)
  | sample (id : Nat) (t : Tick)
  | waitProc (id : Nat)
deriving DecidableEq

/-- Recognizer for launch events. -/
def isSpawn : Event → Bool
  | .spawn _ => true
  | _ => false

/-- The final console report of `run_process_loop` (lines 128-131). -/
inductive Report where
  | noJobs
  | summary (n : Nat)
deriving DecidableEq

/-- The `for current_proc_ID, value in self.queue.items()` loop of
`Qmighty.run_process_loop` (`qmighty.py` lines 114-126).  Returns the
events performed and whether the loop ran to completion (`false` when a
job's `spawn_thread` raised, which nothing in the source catches). -/
def run_jobs : List (Nat × JobWorld) → List Event × Bool
  | [] => ([], true)
  | (id, w) :: rest =>
    if w.launchOk then
      let r := run_jobs rest
      (Event.spawn id :: ((superviseTicks w.ticks).map (Event.sample id) ++ r.1), r.2)
    else ([], false)

/-- `Qmighty.run_process_loop` (`qmighty.py` lines 110-131): run the queue,
then print the no-jobs diagnostic or the timing summary — unless an
uncaught launch exception aborted the run first (`none`). -/
def run_process_loop (numProcs : Nat) (q : List (Nat × JobWorld)) :
    List Event × Option Report :=
  let r := run_jobs q
  (r.1, if r.2 then some (if numProcs = 0 then Report.noJobs else Report.summary numProcs) else none)

/-- Attach an external world to each queued job, in queue order. -/
def zipWorlds (q : List (Nat × JobRecord)) (ws : List JobWorld) : List (Nat × JobWorld) :=
  List.zipWith (fun p w => (p.1, w)) q ws

/-- All supplied worlds launch successfully. -/
def allLaunchOk (ws : List JobWorld) : Bool :=
  ws.all (fun w => w.launchOk)

/-- A queued job whose launch succeeds. -/
def launchOkP (j : Nat × JobWorld) : Bool :=
  j.2.launchOk

/-- The `__main__` flow after argument parsing (`qmighty.py` lines 200-202):
`init_processes` followed by `run_process_loop`; when `init_processes`
raises, the run never starts and nothing is printed. -/
def run_queue (computer input root : String) (suffixes : List String)
    (dirs : List (String × List String)) (ws : List JobWorld) :
    List Event × Option Report :=
  match init_processes computer input root suffixes dirs with
  | .error _ => ([], none)
  | .ok q => run_process_loop (init_num_procs suffixes dirs) (zipWorlds q ws)

/-- A string containing no whitespace characters (so that `str.split()`
keeps it as one token). -/
def noWs (s : String) : Bool :=
  s.data.all (fun c => !c.isWhitespace)

/-! ## Helper lemmas -/

theorem sanity_check_iff (suffixes filenames : List String) :
    sanity_check suffixes filenames = true ↔
      ∃ f ∈ filenames, ∃ s ∈ suffixes, s.data <:+: f.data := by
  simp [sanity_check, substr, List.any_eq_true]

theorem mem_add_suffix (l : List String) : ∀ (acc : List String) (x : String),
    x ∈ add_suffix acc l ↔ x ∈ acc ∨ x ∈ l := by
  induction l with
  | nil => intro acc x; simp [add_suffix]
  | cons s rest ih =>
    intro acc x
    rw [add_suffix, ih]
    by_cases hs : s ∈ acc
    · rw [if_pos hs]
      simp only [List.mem_cons]
      constructor
      · rintro (h | h)
        · exact Or.inl h
        · exact Or.inr (Or.inr h)
      · rintro (h | rfl | h)
        · exact Or.inl h
        · exact Or.inl hs
        · exact Or.inr h
    · rw [if_neg hs]
      simp only [List.mem_append, List.mem_singleton, List.mem_cons]
      tauto

/-! ## Claims -/

/-- Claim C1: for every directory, `sanity_check` returns true if and only if
at least one filename listed in it contains at least one of the accepted
suffixes as a substring (substring containment on the characters, not an
extension match). -/
theorem claim_C1_sanity_check (suffixes filenames : List String) :
    sanity_check suffixes filenames = true ↔
      ∃ f ∈ filenames, ∃ s ∈ suffixes, s.data <:+: f.data :=
  sanity_check_iff suffixes filenames

/-- Claim C10: when the constructor's `add_suffixes` argument is a string
`s` (as the CLI entry point does by passing `input_format`), `add_suffix`
iterates the characters of `s` and each character not already present
becomes its own accepted suffix; consequently `sanity_check` accepts any
directory containing a filename that contains any such character. -/
theorem claim_C10_char_suffixes (s : String) (c : Char)
    (filenames : List String) (f : String)
    (hc : c ∈ s.data) (hf : f ∈ filenames) (hcf : c ∈ f.data) :
    String.mk [c] ∈ qmighty_suffixes (some s) ∧
      sanity_check (qmighty_suffixes (some s)) filenames = true := by
  have hmem : String.mk [c] ∈ qmighty_suffixes (some s) := by
    rw [qmighty_suffixes, mem_add_suffix]
    exact Or.inr (List.mem_map.mpr ⟨c, hc, rfl⟩)
  refine ⟨hmem, ?_⟩
  rw [sanity_check_iff]
  rcases List.append_of_mem hcf with ⟨u, v, huv⟩
  exact ⟨f, hf, String.mk [c], hmem, ⟨u, v, by simp [huv]⟩⟩

/-- Witness for C10 at concrete input: the input format `"run.lmp"` turns
the character `'n'` into an accepted suffix, so a directory containing only
the file `"notes_v2"` is accepted. -/
theorem claim_C10_witness :
    ('n' ∈ "run.lmp".data ∧ "notes_v2" ∈ ["notes_v2"] ∧ 'n' ∈ "notes_v2".data) ∧
      (String.mk ['n'] ∈ qmighty_suffixes (some "run.lmp") ∧
        sanity_check (qmighty_suffixes (some "run.lmp")) ["notes_v2"] = true) :=
  ⟨by decide,
    claim_C10_char_suffixes "run.lmp" 'n' ["notes_v2"] "notes_v2"
      (by decide) (by decide) (by decide)⟩

/-- Claim C4: `update_timings` never raises as long as the log-reading
collaborator honours its interface (a `CPULeft` series, when present,
contains its most recent data point, i.e. is non-empty): when the log was
absent, unreadable or had no parsable entry the remaining time is exactly
0, otherwise it is the rounded most recent data point of the latest run. -/
theorem claim_C4_update_timings (r : Option (List ℚ)) (h : r ≠ some []) :
    update_timings_remaining r = some (spec_remaining r) := by
  cases r with
  | none => rfl
  | some l =>
    cases hl : l.getLast? with
    | none => exact absurd (congrArg some (List.getLast?_eq_none_iff.mp hl)) h
    | some x => simp [update_timings_remaining, spec_remaining, hl]

/-- Witness for C4 at a concrete log outcome: a series whose last data
point is `5/2` gives remaining time `some 2` (Python's banker's rounding),
never an exception. -/
theorem claim_C4_witness :
    (some [(7 : ℚ), 5 / 2] ≠ some ([] : List ℚ)) ∧
      update_timings_remaining (some [(7 : ℚ), 5 / 2])
        = some (spec_remaining (some [(7 : ℚ), 5 / 2])) :=
  ⟨by decide, claim_C4_update_timings (some [(7 : ℚ), 5 / 2]) (by decide)⟩

/-- Claim C9: for every `computer` argument other than `'CPU'` or `'GPU'`,
`init_processes` fails with the invalid-computer-kind `ValueError`, at
queue-build time: no queue is produced, and the subsequent run performs no
events and prints nothing. -/
theorem claim_C9_invalid_kind (computer input root : String) (suffixes : List String)
    (dirs : List (String × List String)) (ws : List JobWorld)
    (h1 : computer ≠ "CPU") (h2 : computer ≠ "GPU") :
    init_processes computer input root suffixes dirs
        = Except.error ("computer=" ++ computer ++ ", not 'CPU' or 'GPU'") ∧
      run_queue computer input root suffixes dirs ws = ([], none) := by
  have hcond : ¬ (computer = "CPU" ∨ computer = "GPU") := by
    rintro (h | h)
    · exact h1 h
    · exact h2 h
  constructor
  · simp [init_processes, hcond]
  · simp [run_queue, init_processes, hcond]

/-- Witness for C9: `build('x', ...)` fails with the invalid-kind error and
the run performs nothing. -/
theorem claim_C9_witness :
    ("x" ≠ "CPU" ∧ "x" ≠ "GPU") ∧
      (init_processes "x" "run.lmp" "." default_suffixes []
          = Except.error ("computer=" ++ "x" ++ ", not 'CPU' or 'GPU'") ∧
        run_queue "x" "run.lmp" "." default_suffixes [] [] = ([], none)) :=
  ⟨by decide, claim_C9_invalid_kind "x" "run.lmp" "." default_suffixes [] []
    (by decide) (by decide)⟩

theorem init_loop_map_fst (computer input root : String) (suffixes : List String) :
    ∀ (dirs : List (String × List String)) (n : Nat),
      (init_loop computer input root suffixes n dirs).map Prod.fst
        = List.range' n (init_loop computer input root suffixes n dirs).length := by
  intro dirs
  induction dirs with
  | nil => intro n; simp [init_loop]
  | cons d rest ih =>
    intro n
    rcases d with ⟨dname, files⟩
    by_cases h : sanity_check suffixes files = true
    · simp only [init_loop, if_pos h, List.map_cons, List.length_cons, List.range'_succ]
      rw [ih]
    · simp only [init_loop, if_neg h]
      exact ih n

theorem init_loop_map_name (computer input root : String) (suffixes : List String) :
    ∀ (dirs : List (String × List String)) (n : Nat),
      (init_loop computer input root suffixes n dirs).map (fun p => p.2.name)
        = (dirs.filter (fun d => sanity_check suffixes d.2)).map Prod.fst := by
  intro dirs
  induction dirs with
  | nil => intro n; simp [init_loop]
  | cons d rest ih =>
    intro n
    rcases d with ⟨dname, files⟩
    rw [List.filter_cons]
    by_cases h : sanity_check suffixes files = true
    · simp only [init_loop, if_pos h, List.map_cons]
      simp [h, ih]
    · simp only [init_loop, if_neg h]
      simp [h, ih]

theorem init_loop_length (computer input root : String) (suffixes : List String) :
    ∀ (dirs : List (String × List String)) (n : Nat),
      (init_loop computer input root suffixes n dirs).length = init_num_procs suffixes dirs := by
  intro dirs
  induction dirs with
  | nil => intro n; simp [init_loop, init_num_procs]
  | cons d rest ih =>
    intro n
    rcases d with ⟨dname, files⟩
    simp only [init_num_procs, List.countP_cons] at ih ⊢
    by_cases h : sanity_check suffixes files = true
    · simp only [init_loop, if_pos h, List.length_cons]
      simp [h, ih (n + 1)]
    · simp only [init_loop, if_neg h]
      simp [h, ih n]

theorem init_processes_ok (computer input root : String) (suffixes : List String)
    (dirs : List (String × List String)) (q : List (Nat × JobRecord))
    (h : init_processes computer input root suffixes dirs = Except.ok q) :
    (computer = "CPU" ∨ computer = "GPU") ∧
      q = init_loop computer input root suffixes 100 dirs := by
  by_cases hc : computer = "CPU" ∨ computer = "GPU"
  · rw [init_processes, if_pos hc] at h
    exact ⟨hc, (Except.ok.inj h).symm⟩
  · rw [init_processes, if_neg hc] at h
    exact absurd h (by simp)

/-- Claim C2: for every candidate directory list, `init_processes` assigns
job ids starting at 100 and incrementing by exactly 1 per accepted job,
assigns ids only to directories that pass `sanity_check` (failing
directories are silently skipped), and assigns them in discovery order. -/
theorem claim_C2_job_ids (computer input root : String) (suffixes : List String)
    (dirs : List (String × List String)) (q : List (Nat × JobRecord))
    (h : init_processes computer input root suffixes dirs = Except.ok q) :
    q.map Prod.fst = List.range' 100 q.length ∧
      q.map (fun p => p.2.name)
        = (dirs.filter (fun d => sanity_check suffixes d.2)).map Prod.fst := by
  obtain ⟨-, rfl⟩ := init_processes_ok computer input root suffixes dirs q h
  exact ⟨init_loop_map_fst computer input root suffixes dirs 100,
    init_loop_map_name computer input root suffixes dirs 100⟩

/-- Witness for C2 at a concrete directory list: of the two candidates only
`"a"` (whose listing contains `"x.in"`) is accepted, receiving id 100;
`"b"` is silently skipped. -/
theorem claim_C2_witness :
    init_processes "CPU" "run.lmp" "." default_suffixes [("a", ["x.in"]), ("b", ["y"])]
        = Except.ok [((100 : Nat),
            (⟨"./a", "a", ["mpirun", "-np", "4", "-wdir", "./a", "lmp", "-in", "run.lmp"]⟩ :
              JobRecord))] ∧
      ([((100 : Nat),
          (⟨"./a", "a", ["mpirun", "-np", "4", "-wdir", "./a", "lmp", "-in", "run.lmp"]⟩ :
            JobRecord))].map Prod.fst
          = List.range' 100 ([((100 : Nat),
              (⟨"./a", "a", ["mpirun", "-np", "4", "-wdir", "./a", "lmp", "-in", "run.lmp"]⟩ :
                JobRecord))].length) ∧
        [((100 : Nat),
            (⟨"./a", "a", ["mpirun", "-np", "4", "-wdir", "./a", "lmp", "-in", "run.lmp"]⟩ :
              JobRecord))].map (fun p => p.2.name)
          = ([("a", ["x.in"]), ("b", ["y"])].filter
              (fun d => sanity_check default_suffixes d.2)).map Prod.fst) :=
  ⟨by rfl,
    claim_C2_job_ids "CPU" "run.lmp" "." default_suffixes [("a", ["x.in"]), ("b", ["y"])]
      [((100 : Nat),
        (⟨"./a", "a", ["mpirun", "-np", "4", "-wdir", "./a", "lmp", "-in", "run.lmp"]⟩ :
          JobRecord))] (by rfl)⟩

theorem superviseTicks_stderrOpen : ∀ (w : List Tick), ∀ t ∈ superviseTicks w,
    t.stderrOpen = true := by
  intro w
  induction w with
  | nil => intro t ht; simp [superviseTicks] at ht
  | cons a rest ih =>
    intro t ht
    by_cases h : a.stderrOpen = true
    · rw [superviseTicks, if_pos h] at ht
      rcases List.mem_cons.mp ht with rfl | ht
      · exact h
      · exact ih t ht
    · rw [superviseTicks, if_neg h] at ht
      simp at ht

theorem superviseTicks_isPre : ∀ (w : List Tick), superviseTicks w <+: w := by
  intro w
  induction w with
  | nil => exact ⟨[], rfl⟩
  | cons a rest ih =>
    by_cases h : a.stderrOpen = true
    · rw [superviseTicks, if_pos h]
      exact List.cons_prefix_cons.mpr ⟨rfl, ih⟩
    · rw [superviseTicks, if_neg h]
      exact ⟨a :: rest, rfl⟩

theorem superviseTicks_exit : ∀ (w : List Tick),
    (w.get? (superviseTicks w).length).all (fun t => !t.stderrOpen) = true := by
  intro w
  induction w with
  | nil => rfl
  | cons a rest ih =>
    by_cases h : a.stderrOpen = true
    · rw [superviseTicks, if_pos h]
      simpa [List.get?] using ih
    · rw [superviseTicks, if_neg h]
      simp [List.get?, h]

theorem superviseTicks_chain (w : List Tick) (t0 : ℚ)
    (h : List.Chain' (fun a b : Tick => a.time < b.time) w) :
    List.Chain' (fun x y : ℚ => x < y)
      ((superviseTicks w).map (fun t => elapsed_at t0 t.time)) := by
  have hc : List.Chain' (fun a b : Tick => a.time < b.time) (superviseTicks w) :=
    List.Chain'.prefix h (superviseTicks_isPre w)
  rw [List.chain'_map]
  refine hc.imp ?_
  intro a b hab
  exact sub_lt_sub_right hab t0

/-- Claim C6 (amended): the sampling loop terminates exactly when the
stderr-drain thread's `is_alive()` becomes false — the source's loop
condition at line 119 tests the drain thread, not the external process —
and, for strictly increasing wall-clock instants, `elapsed` strictly
increases across successive samples; once the drain thread dies no further
sample/render ticks occur. -/
theorem claim_C6_sampling (w : List Tick) (t0 : ℚ)
    (h : List.Chain' (fun a b : Tick => a.time < b.time) w) :
    (superviseTicks w).all (fun t => t.stderrOpen) = true ∧
      superviseTicks w <+: w ∧
      (w.get? (superviseTicks w).length).all (fun t => !t.stderrOpen) = true ∧
      List.Chain' (fun x y : ℚ => x < y)
        ((superviseTicks w).map (fun t => elapsed_at t0 t.time)) := by
  refine ⟨?_, superviseTicks_isPre w, superviseTicks_exit w, superviseTicks_chain w t0 h⟩
  rw [List.all_eq_true]
  exact superviseTicks_stderrOpen w

/-- Counterexample to claim C6 as stated: the loop does not terminate
exactly when the process exits.  A sample tick can occur after the process
has exited (stderr still open, e.g. buffered output), and the loop can
terminate while the process is still running (stderr closed early). -/
theorem claim_C6_cx :
    (⟨true, false, 0⟩ : Tick) ∈ superviseTicks [⟨true, false, 0⟩] ∧
      (⟨true, false, 0⟩ : Tick).procRunning = false ∧
      superviseTicks [⟨false, true, 0⟩] = [] ∧
      (⟨false, true, 0⟩ : Tick).procRunning = true := by
  decide

/-- Witness for the amended C6 on a concrete three-tick world with strictly
increasing clock readings. -/
theorem claim_C6_witness :
    List.Chain' (fun a b : Tick => a.time < b.time)
        [⟨true, true, 1⟩, ⟨true, true, 2⟩, ⟨false, true, 3⟩] ∧
      ((superviseTicks [⟨true, true, 1⟩, ⟨true, true, 2⟩, ⟨false, true, 3⟩]).all
            (fun t => t.stderrOpen) = true ∧
        superviseTicks [⟨true, true, 1⟩, ⟨true, true, 2⟩, ⟨false, true, 3⟩]
            <+: [⟨true, true, 1⟩, ⟨true, true, 2⟩, ⟨false, true, 3⟩] ∧
        (([⟨true, true, 1⟩, ⟨true, true, 2⟩, ⟨false, true, 3⟩] :
              List Tick).get?
            (superviseTicks [⟨true, true, 1⟩, ⟨true, true, 2⟩, ⟨false, true, 3⟩]).length).all
            (fun t => !t.stderrOpen) = true ∧
        List.Chain' (fun x y : ℚ => x < y)
          ((superviseTicks [⟨true, true, 1⟩, ⟨true, true, 2⟩, ⟨false, true, 3⟩]).map
            (fun t => elapsed_at 0 t.time))) :=
  ⟨by simp only [List.chain'_cons, List.chain'_singleton, and_true]; norm_num,
    claim_C6_sampling [⟨true, true, 1⟩, ⟨true, true, 2⟩, ⟨false, true, 3⟩] 0
      (by simp only [List.chain'_cons, List.chain'_singleton, and_true]; norm_num)⟩

theorem run_jobs_no_wait : ∀ (q : List (Nat × JobWorld)) (i : Nat),
    Event.waitProc i ∉ (run_jobs q).1 := by
  intro q
  induction q with
  | nil => intro i h; simp [run_jobs] at h
  | cons j rest ih =>
    intro i
    rcases j with ⟨id, w⟩
    by_cases hw : w.launchOk = true
    · simp only [run_jobs, if_pos hw]
      intro h
      rcases List.mem_cons.mp h with h | h
      · simp at h
      · rcases List.mem_append.mp h with h | h
        · rcases List.mem_map.mp h with ⟨t, -, ht⟩
          simp at ht
        · exact ih i h
    · simp [run_jobs, hw]

theorem isPrefix_append_left {α : Type} (a : List α) {x y : List α} (h : x <+: y) :
    a ++ x <+: a ++ y := by
  rcases h with ⟨t, rfl⟩
  exact ⟨t, by rw [List.append_assoc]⟩

theorem run_jobs_take_pre : ∀ (q : List (Nat × JobWorld)) (k : Nat),
    (run_jobs (q.take k)).1 <+: (run_jobs q).1 := by
  intro q
  induction q with
  | nil => intro k; simp [run_jobs]
  | cons j rest ih =>
    intro k
    cases k with
    | zero => exact ⟨(run_jobs (j :: rest)).1, rfl⟩
    | succ k =>
      rcases j with ⟨id, w⟩
      by_cases hw : w.launchOk = true
      · simp only [List.take_succ_cons, run_jobs, if_pos hw]
        exact List.cons_prefix_cons.mpr ⟨rfl, isPrefix_append_left _ (ih k)⟩
      · simp only [List.take_succ_cons, run_jobs, if_neg hw]
        exact ⟨[], rfl⟩

/-- Claim C5 (amended): the run loop is sequential — the events of the
first `k` jobs always form a prefix of the whole run's event trace, so all
of one job's supervision precedes the next job's spawn — but the previous
job's external process is never waited on before advancing: no reap event
ever occurs (the source blocks on, and joins, only the stderr-drain
thread, lines 119 and 124-126; `process.wait()` is never called). -/
theorem claim_C5_sequencing (n : Nat) (q : List (Nat × JobWorld)) (k i : Nat) :
    Event.waitProc i ∉ (run_process_loop n q).1 ∧
      (run_jobs (q.take k)).1 <+: (run_jobs q).1 := by
  constructor
  · show Event.waitProc i ∉ (run_jobs q).1
    exact run_jobs_no_wait q i
  · exact run_jobs_take_pre q k

/-- Counterexample to claim C5 as stated: the queue advances to job 101
although the check on which job 100's supervision loop exited still saw
the external process running (stderr closed while the process lived), and
no wait/reap of job 100's process ever occurs in the trace. -/
theorem claim_C5_cx :
    (run_process_loop 2 [(100, ⟨true, [⟨false, true, 0⟩]⟩), (101, ⟨true, []⟩)]).1
        = [Event.spawn 100, Event.spawn 101] ∧
      exitCheckTick [⟨false, true, 0⟩] = some ⟨false, true, 0⟩ ∧
      (⟨false, true, 0⟩ : Tick).procRunning = true ∧
      Event.waitProc 100 ∉
        (run_process_loop 2 [(100, ⟨true, [⟨false, true, 0⟩]⟩), (101, ⟨true, []⟩)]).1 := by
  decide

theorem run_jobs_crash : ∀ (pre : List (Nat × JobWorld)) (id : Nat) (w : JobWorld)
    (post : List (Nat × JobWorld)),
    pre.all launchOkP = true → w.launchOk = false →
    run_jobs (pre ++ (id, w) :: post) = ((run_jobs pre).1, false) := by
  intro pre
  induction pre with
  | nil =>
    intro id w post _ hw
    simp [run_jobs, hw]
  | cons j rest ih =>
    intro id w post hall hw
    rcases j with ⟨jid, jw⟩
    simp only [List.all_cons, Bool.and_eq_true, launchOkP] at hall
    obtain ⟨hj, hrest⟩ := hall
    simp only [List.cons_append, run_jobs, if_pos hj, List.append_eq, ih id w post hrest hw]

/-- Claim C7 (amended): a job whose process launch fails (the `open` or
`Popen` of `spawn_thread` raises) aborts the entire run: nothing in the
source catches the exception, so the events of the run are exactly those
of the jobs before the failing one — later jobs are never spawned — and no
final report is printed. -/
theorem claim_C7_crash (n : Nat) (pre : List (Nat × JobWorld)) (id : Nat) (w : JobWorld)
    (post : List (Nat × JobWorld))
    (hpre : pre.all launchOkP = true) (hw : w.launchOk = false) :
    run_process_loop n (pre ++ (id, w) :: post) = ((run_jobs pre).1, none) := by
  unfold run_process_loop
  rw [run_jobs_crash pre id w post hpre hw]
  simp

/-- Counterexample to claim C7 as stated: with job 100's launch failing,
the run does not proceed to job 101 (its spawn never happens) and crashes
with no report, instead of surfacing the failure and continuing. -/
theorem claim_C7_cx :
    run_process_loop 2 [(100, ⟨false, []⟩), (101, ⟨true, []⟩)] = ([], none) ∧
      Event.spawn 101 ∉ (run_process_loop 2 [(100, ⟨false, []⟩), (101, ⟨true, []⟩)]).1 := by
  decide

/-- Witness for the amended C7: job 100 launches and runs, job 101's launch
fails, job 102 is never reached; the run ends with no report. -/
theorem claim_C7_witness :
    ([((100 : Nat), (⟨true, []⟩ : JobWorld))].all launchOkP = true ∧
        (⟨false, []⟩ : JobWorld).launchOk = false) ∧
      run_process_loop 3
          ([((100 : Nat), (⟨true, []⟩ : JobWorld))] ++
            ((101 : Nat), (⟨false, []⟩ : JobWorld)) :: [((102 : Nat), (⟨true, []⟩ : JobWorld))])
        = ((run_jobs [((100 : Nat), (⟨true, []⟩ : JobWorld))]).1, none) :=
  ⟨by decide,
    claim_C7_crash 3 [((100 : Nat), (⟨true, []⟩ : JobWorld))] 101 (⟨false, []⟩ : JobWorld)
      [((102 : Nat), (⟨true, []⟩ : JobWorld))] (by decide) (by decide)⟩

theorem countP_samples (id : Nat) (ts : List Tick) :
    (ts.map (Event.sample id)).countP isSpawn = 0 := by
  induction ts with
  | nil => rfl
  | cons t rest ih => simp [List.countP_cons, isSpawn, ih]

theorem run_jobs_all_ok : ∀ (q : List (Nat × JobWorld)),
    q.all launchOkP = true →
    (run_jobs q).2 = true ∧ (run_jobs q).1.countP isSpawn = q.length := by
  intro q
  induction q with
  | nil => intro _; exact ⟨rfl, rfl⟩
  | cons j rest ih =>
    intro hall
    rcases j with ⟨id, w⟩
    simp only [List.all_cons, Bool.and_eq_true, launchOkP] at hall
    obtain ⟨hj, hrest1⟩ := hall
    have hrest := ih hrest1
    simp only [run_jobs, if_pos hj]
    refine ⟨hrest.1, ?_⟩
    simp [List.countP_cons, List.countP_append, isSpawn, countP_samples, hrest.2]

theorem zipWorlds_all_ok : ∀ (q : List (Nat × JobRecord)) (ws : List JobWorld),
    allLaunchOk ws = true → (zipWorlds q ws).all launchOkP = true := by
  intro q
  induction q with
  | nil => intro ws _; rfl
  | cons p rest ih =>
    intro ws hws
    cases ws with
    | nil => rfl
    | cons w wrest =>
      simp only [allLaunchOk, List.all_cons, Bool.and_eq_true] at hws
      obtain ⟨hw, hrest⟩ := hws
      simp only [zipWorlds, List.zipWith_cons_cons, List.all_cons, Bool.and_eq_true]
      constructor
      · simpa [launchOkP] using hw
      · have := ih wrest (by simpa [allLaunchOk] using hrest)
        simpa [zipWorlds] using this

/-- Claim C8 (amended): when every supplied launch succeeds
(and enough worlds are supplied for the accepted jobs), a queue built from
zero accepted directories performs zero launches and reports the no-jobs
diagnostic, and a queue with at least one accepted job reports the timing
summary; in general the number of spawn events equals the number of
accepted directories.  (The unamended claim fails when a launch raises:
see the counterexample.) -/
theorem claim_C8_reporting (computer input root : String) (suffixes : List String)
    (dirs : List (String × List String)) (ws : List JobWorld)
    (hc : computer = "CPU" ∨ computer = "GPU")
    (hws : allLaunchOk ws = true)
    (hlen : init_num_procs suffixes dirs ≤ ws.length) :
    (run_queue computer input root suffixes dirs ws).2
        = some (if init_num_procs suffixes dirs = 0 then Report.noJobs
            else Report.summary (init_num_procs suffixes dirs)) ∧
      (run_queue computer input root suffixes dirs ws).1.countP isSpawn
        = init_num_procs suffixes dirs := by
  have hlen2 : (init_loop computer input root suffixes 100 dirs).length
      = init_num_procs suffixes dirs := init_loop_length computer input root suffixes dirs 100
  unfold run_queue
  rw [init_processes, if_pos hc]
  simp only []
  have hzip : (zipWorlds (init_loop computer input root suffixes 100 dirs) ws).all launchOkP
      = true := zipWorlds_all_ok _ ws hws
  obtain ⟨hdone, hcount⟩ := run_jobs_all_ok _ hzip
  constructor
  · show (if (run_jobs (zipWorlds (init_loop computer input root suffixes 100 dirs) ws)).2
        then some (if init_num_procs suffixes dirs = 0 then Report.noJobs
          else Report.summary (init_num_procs suffixes dirs)) else none) = _
    rw [hdone, if_pos rfl]
  · show (run_jobs (zipWorlds (init_loop computer input root suffixes 100 dirs) ws)).1.countP
        isSpawn = _
    rw [hcount]
    unfold zipWorlds
    rw [List.length_zipWith, hlen2]
    exact Nat.min_eq_left hlen

/-- Counterexample to claim C8 as stated: a queue with one accepted job
(`init_num_procs = 1`) whose launch fails prints no timing summary at all
— the run crashes with no report. -/
theorem claim_C8_cx :
    init_num_procs default_suffixes [("sim1", ["run.lmp"])] = 1 ∧
      run_queue "CPU" "run.lmp" "." default_suffixes [("sim1", ["run.lmp"])]
          [(⟨false, []⟩ : JobWorld)] = ([], none) := by
  constructor
  · rfl
  · rfl

/-- Witness for the amended C8: one accepted directory with a successful
launch yields exactly one spawn and the summary report. -/
theorem claim_C8_witness :
    (("CPU" = "CPU" ∨ "CPU" = "GPU") ∧
        allLaunchOk [(⟨true, []⟩ : JobWorld)] = true ∧
        init_num_procs default_suffixes [("sim1", ["run.lmp"])]
          ≤ [(⟨true, []⟩ : JobWorld)].length) ∧
      ((run_queue "CPU" "run.lmp" "." default_suffixes [("sim1", ["run.lmp"])]
            [(⟨true, []⟩ : JobWorld)]).2
          = some (if init_num_procs default_suffixes [("sim1", ["run.lmp"])] = 0
              then Report.noJobs
              else Report.summary (init_num_procs default_suffixes [("sim1", ["run.lmp"])])) ∧
        (run_queue "CPU" "run.lmp" "." default_suffixes [("sim1", ["run.lmp"])]
            [(⟨true, []⟩ : JobWorld)]).1.countP isSpawn
          = init_num_procs default_suffixes [("sim1", ["run.lmp"])]) :=
  ⟨⟨Or.inl rfl, rfl, by decide⟩,
    claim_C8_reporting "CPU" "run.lmp" "." default_suffixes [("sim1", ["run.lmp"])]
      [(⟨true, []⟩ : JobWorld)] (Or.inl rfl) rfl (by decide)⟩

theorem mk_data (s : String) : String.mk s.data = s := rfl

theorem splitCore_word_space (w : List Char) (rest : List Char)
    (h : w.all (fun c => !c.isWhitespace) = true) :
    splitCore (w ++ ' ' :: rest) = w :: splitCore rest := by
  induction w with
  | nil =>
    simp only [List.nil_append]
    rw [splitCore, if_pos (by decide)]
  | cons c cs ih =>
    simp only [List.all_cons, Bool.and_eq_true] at h
    obtain ⟨hc, hcs⟩ := h
    simp only [List.cons_append]
    rw [splitCore, if_neg (by simp_all), ih hcs]
    rfl

theorem splitCore_word (w : List Char) (h : w.all (fun c => !c.isWhitespace) = true)
    (hne : w ≠ []) : splitCore w = [w] := by
  induction w with
  | nil => exact absurd rfl hne
  | cons c cs ih =>
    simp only [List.all_cons, Bool.and_eq_true] at h
    obtain ⟨hc, hcs⟩ := h
    rw [splitCore, if_neg (by simp_all)]
    cases hcase : cs with
    | nil =>
      subst hcase
      rfl
    | cons d ds =>
      subst hcase
      rw [ih hcs (by simp)]
      rfl

theorem data_ne_nil (s : String) (h : s ≠ "") : s.data ≠ [] := by
  intro hnil
  exact h (String.ext hnil)

theorem isEmpty_false_of_ne_nil {l : List Char} (h : l ≠ []) : l.isEmpty = false := by
  cases l with
  | nil => exact absurd rfl h
  | cons a as => rfl

theorem noWs_append (a b : String) (ha : noWs a = true) (hb : noWs b = true) :
    noWs (a ++ b) = true := by
  simp only [noWs] at ha hb
  simp only [noWs, String.data_append, List.all_append, Bool.and_eq_true]
  exact ⟨ha, hb⟩

theorem path_join_noWs (a b : String) (ha : noWs a = true) (hb : noWs b = true) :
    noWs (path_join a b) = true := by
  rw [path_join]
  split
  · exact hb
  split
  · exact noWs_append a b ha hb
  · exact noWs_append _ _ (noWs_append a "/" ha (by decide)) hb

theorem path_join_ne_empty (a b : String) (hb : b ≠ "") : path_join a b ≠ "" := by
  have hbd : b.data ≠ [] := data_ne_nil b hb
  rw [path_join]
  split
  · exact hb
  · split
    · intro h
      rw [String.ext_iff] at h
      simp only [String.data_append, List.append_eq_nil] at h
      exact hbd h.2
    · intro h
      rw [String.ext_iff] at h
      simp only [String.data_append, List.append_eq_nil] at h
      exact hbd h.2

theorem build_command_cpu (p f : String) (hp : noWs p = true) (hp0 : p ≠ "")
    (hf : noWs f = true) (hf0 : f ≠ "") :
    build_command "CPU" p f = ["mpirun", "-np", "4", "-wdir", p, "lmp", "-in", f] := by
  have hpd : p.data ≠ [] := data_ne_nil p hp0
  have hfd : f.data ≠ [] := data_ne_nil f hf0
  rw [build_command, if_pos rfl, pySplit]
  have hdata : ("mpirun -np 4 -wdir " ++ p ++ " lmp -in " ++ f).data
      = "mpirun".data ++ ' ' :: ("-np".data ++ ' ' :: ("4".data ++ ' ' ::
          ("-wdir".data ++ ' ' :: (p.data ++ ' ' :: ("lmp".data ++ ' ' ::
            ("-in".data ++ ' ' :: f.data)))))) := by
    simp only [String.data_append, List.append_assoc]
    rfl
  rw [hdata,
    splitCore_word_space "mpirun".data _ (by decide),
    splitCore_word_space "-np".data _ (by decide),
    splitCore_word_space "4".data _ (by decide),
    splitCore_word_space "-wdir".data _ (by decide),
    splitCore_word_space p.data _ hp,
    splitCore_word_space "lmp".data _ (by decide),
    splitCore_word_space "-in".data _ (by decide),
    splitCore_word f.data hf hfd]
  have hfilter : ∀ x ∈ ["mpirun".data, "-np".data, "4".data, "-wdir".data, p.data,
      "lmp".data, "-in".data, f.data], (!x.isEmpty) = true := by
    intro x hx
    simp only [List.mem_cons, List.not_mem_nil, or_false] at hx
    rcases hx with rfl | rfl | rfl | rfl | rfl | rfl | rfl | rfl
    · decide
    · decide
    · decide
    · decide
    · simp [isEmpty_false_of_ne_nil hpd]
    · decide
    · decide
    · simp [isEmpty_false_of_ne_nil hfd]
  rw [List.filter_eq_self.mpr hfilter]
  simp only [List.map_cons, List.map_nil, mk_data]

theorem build_command_gpu (p f : String) (hp : noWs p = true) (hp0 : p ≠ "")
    (hf : noWs f = true) (hf0 : f ≠ "") :
    build_command "GPU" p f = ["mpirun", "-n", "1", "-wdir", p, "lmp", "-k", "on", "g", "1",
      "-sf", "kk", "-pk", "kokkos", "newton", "on", "neigh", "half", "-in", f] := by
  have hpd : p.data ≠ [] := data_ne_nil p hp0
  have hfd : f.data ≠ [] := data_ne_nil f hf0
  rw [build_command, if_neg (by decide), if_pos rfl, pySplit]
  have hdata : ("mpirun -n 1 -wdir " ++ p ++ " lmp -k on g 1 -sf kk -pk kokkos newton on neigh half -in " ++ f).data
      = "mpirun".data ++ ' ' :: ("-n".data ++ ' ' :: ("1".data ++ ' ' ::
          ("-wdir".data ++ ' ' :: (p.data ++ ' ' :: ("lmp".data ++ ' ' ::
            ("-k".data ++ ' ' :: ("on".data ++ ' ' :: ("g".data ++ ' ' ::
              ("1".data ++ ' ' :: ("-sf".data ++ ' ' :: ("kk".data ++ ' ' ::
                ("-pk".data ++ ' ' :: ("kokkos".data ++ ' ' :: ("newton".data ++ ' ' ::
                  ("on".data ++ ' ' :: ("neigh".data ++ ' ' :: ("half".data ++ ' ' ::
                    ("-in".data ++ ' ' :: f.data)))))))))))))))))) := by
    simp only [String.data_append, List.append_assoc]
    rfl
  rw [hdata,
    splitCore_word_space "mpirun".data _ (by decide),
    splitCore_word_space "-n".data _ (by decide),
    splitCore_word_space "1".data _ (by decide),
    splitCore_word_space "-wdir".data _ (by decide),
    splitCore_word_space p.data _ hp,
    splitCore_word_space "lmp".data _ (by decide),
    splitCore_word_space "-k".data _ (by decide),
    splitCore_word_space "on".data _ (by decide),
    splitCore_word_space "g".data _ (by decide),
    splitCore_word_space "1".data _ (by decide),
    splitCore_word_space "-sf".data _ (by decide),
    splitCore_word_space "kk".data _ (by decide),
    splitCore_word_space "-pk".data _ (by decide),
    splitCore_word_space "kokkos".data _ (by decide),
    splitCore_word_space "newton".data _ (by decide),
    splitCore_word_space "on".data _ (by decide),
    splitCore_word_space "neigh".data _ (by decide),
    splitCore_word_space "half".data _ (by decide),
    splitCore_word_space "-in".data _ (by decide),
    splitCore_word f.data hf hfd]
  have hfilter : ∀ x ∈ ["mpirun".data, "-n".data, "1".data, "-wdir".data, p.data,
      "lmp".data, "-k".data, "on".data, "g".data, "1".data, "-sf".data, "kk".data,
      "-pk".data, "kokkos".data, "newton".data, "on".data, "neigh".data, "half".data,
      "-in".data, f.data], (!x.isEmpty) = true := by
    intro x hx
    simp only [List.mem_cons, List.not_mem_nil, or_false] at hx
    rcases hx with rfl | rfl | rfl | rfl | rfl | hx
    · decide
    · decide
    · decide
    · decide
    · simp [isEmpty_false_of_ne_nil hpd]
    rcases hx with rfl | rfl | rfl | rfl | rfl | rfl | rfl | rfl | rfl | rfl | rfl | rfl |
      rfl | rfl | rfl
    · decide
    · decide
    · decide
    · decide
    · decide
    · decide
    · decide
    · decide
    · decide
    · decide
    · decide
    · decide
    · decide
    · decide
    · simp [isEmpty_false_of_ne_nil hfd]
  rw [List.filter_eq_self.mpr hfilter]
  simp only [List.map_cons, List.map_nil, mk_data]

theorem init_loop_mem (computer input root : String) (suffixes : List String) :
    ∀ (dirs : List (String × List String)) (n : Nat) (e : Nat × JobRecord),
      e ∈ init_loop computer input root suffixes n dirs →
      ∃ d ∈ dirs, e.2.path = path_join root d.1 ∧
        e.2.command = build_command computer e.2.path input := by
  intro dirs
  induction dirs with
  | nil => intro n e he; simp [init_loop] at he
  | cons d rest ih =>
    intro n e he
    rcases d with ⟨dname, files⟩
    by_cases h : sanity_check suffixes files = true
    · rw [init_loop, if_pos h] at he
      rcases List.mem_cons.mp he with rfl | he
      · exact ⟨(dname, files), List.mem_cons_self .., rfl, rfl⟩
      · obtain ⟨d', hd', hpath, hcmd⟩ := ih (n + 1) e he
        exact ⟨d', List.mem_cons_of_mem _ hd', hpath, hcmd⟩
    · rw [init_loop, if_neg h] at he
      obtain ⟨d', hd', hpath, hcmd⟩ := ih n e he
      exact ⟨d', List.mem_cons_of_mem _ hd', hpath, hcmd⟩

/-- Claim C3: for every accepted job directory, building with `'CPU'`
produces the MPI launcher command with process count 4, working directory
equal to the job's path, the simulation binary and the input flag with the
input filename; building with `'GPU'` produces the command with process
count 1 and the fixed GPU acceleration flags (kernel acceleration on,
half-neighbor-list policy).  Stated against `spec_command`, the token
sequence the spec prescribes; the whitespace-freeness and non-emptiness
hypotheses ensure Python's `str.split()` keeps the interpolated path and
filename as single tokens. -/
theorem claim_C3_commands (computer input root : String) (suffixes : List String)
    (dirs : List (String × List String)) (q : List (Nat × JobRecord)) (e : Nat × JobRecord)
    (hq : init_processes computer input root suffixes dirs = Except.ok q)
    (hroot : noWs root = true) (hinput : noWs input = true) (hinput0 : input ≠ "")
    (hdirs : dirs.all (fun d => noWs d.1 && !d.1.isEmpty) = true)
    (he : e ∈ q) :
    e.2.command = spec_command computer e.2.path input := by
  obtain ⟨hc, rfl⟩ := init_processes_ok computer input root suffixes dirs q hq
  obtain ⟨d, hd, hpath, hcmd⟩ := init_loop_mem computer input root suffixes dirs 100 e he
  have hdprops := List.all_eq_true.mp hdirs d hd
  simp only [Bool.and_eq_true] at hdprops
  obtain ⟨hdw, hdne⟩ := hdprops
  have hdne' : d.1 ≠ "" := by
    intro h
    rw [h] at hdne
    exact absurd hdne (by decide)
  have hpw : noWs e.2.path = true := by
    rw [hpath]; exact path_join_noWs root d.1 hroot hdw
  have hp0 : e.2.path ≠ "" := by
    rw [hpath]; exact path_join_ne_empty root d.1 hdne'
  rcases hc with rfl | rfl
  · rw [hcmd, build_command_cpu e.2.path input hpw hp0 hinput hinput0]
    rfl
  · rw [hcmd, build_command_gpu e.2.path input hpw hp0 hinput hinput0]
    rfl

/-- Witness for C3 on the concrete accepted job `"sim1"` under root `"."`
with input `"run.lmp"`: the constructed CPU command is exactly the spec's
token sequence. -/
theorem claim_C3_witness :
    (init_processes "CPU" "run.lmp" "." default_suffixes [("sim1", ["run.lmp"])]
          = Except.ok [((100 : Nat), (⟨"./sim1", "sim1",
              ["mpirun", "-np", "4", "-wdir", "./sim1", "lmp", "-in", "run.lmp"]⟩ :
                JobRecord))] ∧
        noWs "." = true ∧ noWs "run.lmp" = true ∧ "run.lmp" ≠ "" ∧
        ([("sim1", ["run.lmp"])].all (fun d => noWs d.1 && !d.1.isEmpty) = true) ∧
        ((100 : Nat), (⟨"./sim1", "sim1",
            ["mpirun", "-np", "4", "-wdir", "./sim1", "lmp", "-in", "run.lmp"]⟩ :
              JobRecord)) ∈
          [((100 : Nat), (⟨"./sim1", "sim1",
              ["mpirun", "-np", "4", "-wdir", "./sim1", "lmp", "-in", "run.lmp"]⟩ :
                JobRecord))]) ∧
      ((100 : Nat), (⟨"./sim1", "sim1",
          ["mpirun", "-np", "4", "-wdir", "./sim1", "lmp", "-in", "run.lmp"]⟩ :
            JobRecord)).2.command
        = spec_command "CPU"
            ((100 : Nat), (⟨"./sim1", "sim1",
              ["mpirun", "-np", "4", "-wdir", "./sim1", "lmp", "-in", "run.lmp"]⟩ :
                JobRecord)).2.path "run.lmp" :=
  ⟨⟨rfl, by decide, by decide, by decide, by decide, by decide⟩,
    claim_C3_commands "CPU" "run.lmp" "." default_suffixes [("sim1", ["run.lmp"])]
      [((100 : Nat), (⟨"./sim1", "sim1",
          ["mpirun", "-np", "4", "-wdir", "./sim1", "lmp", "-in", "run.lmp"]⟩ :
            JobRecord))]
      ((100 : Nat), (⟨"./sim1", "sim1",
          ["mpirun", "-np", "4", "-wdir", "./sim1", "lmp", "-in", "run.lmp"]⟩ :
            JobRecord))
      rfl (by decide) (by decide) (by decide) (by decide) (by decide)⟩
